import Mathlib

/-!
# Verification of the mpacklog tail-and-serve subsystem

A shallow embedding in Lean 4 of the core of `mpacklog`:

* `mpacklog/log_server.py` — the `LogServer` class: the tailer coroutine
  (`unpack`), the per-connection serve loop (`serve`), the accept loop
  (`listen`) and the shutdown procedure (`stop`);
* `mpacklog/utils.py` — the `find_log_file` helper.

Python values decoded by the MessagePack codec are modelled by the `Value`
type; the external `msgpack` packer and the incremental unpacker are
modelled explicitly where the theorems need them.  Stateful loops become
explicit state-passing functions, and the cooperative interleaving of the
asyncio tasks becomes a small-step transition system (`Sys`, `step`)
whose schedule is an explicit list of `Step`s; interleaving can occur
only at `await` points, exactly as in the single-threaded asyncio
runtime.
-/

/-- A decoded MessagePack value, as produced by `msgpack.Unpacker(raw=False)`:
nil, booleans, integers, strings, arrays and string-keyed maps (the shapes the
log server manipulates; floats and binary blobs are not needed by any theorem
below). -/
inductive Value where
  | nil
  | bool (b : Bool)
  | int (n : Int)
  | str (s : String)
  | list (items : List Value)
  | dict (pairs : List (String × Value))

/-- Python `isinstance(v, dict)` on a decoded value. -/
def Value.isDict : Value → Bool
  | .dict _ => true
  | _ => false

/-- Outcome of running (part of) the tailer's record loop: either the loop
body finished normally with the current value of `self.last_log`, or a
`ValueError` was raised (line 83 of `log_server.py`), carrying the value
`self.last_log` held at the moment of the raise. -/
inductive TailOutcome where
  | ok (cell : Value)
  | valueError (cell : Value)

/-- Did the loop terminate with an uncaught `ValueError`? -/
def TailOutcome.crashed : TailOutcome → Bool
  | .ok _ => false
  | .valueError _ => true

/-- The body `for unpacked in unpacker: ...` of `LogServer.unpack`
(`log_server.py` lines 81-84): each decoded value is checked with
`isinstance(unpacked, dict)`; a dictionary is assigned into
`self.last_log`, anything else raises `ValueError`.  The surrounding
`try` only catches `BrokenPipeError`, so the `ValueError` escapes. -/
def feedRecords (cell : Value) : List Value → TailOutcome
  | [] => .ok cell
  | v :: vs => if v.isDict then feedRecords v vs else .valueError cell

/-- The tailer's `while self.__keep_going` loop of `LogServer.unpack`
(lines 74-87), abstracted over the incremental decoder: each element of
the input list is the batch of values the unpacker yields during one
poll that read data.  A `ValueError` raised in one poll is caught by
nothing inside the loop (only `BrokenPipeError` is, line 85), so it
terminates the coroutine: the remaining polls are never processed. -/
def runTailerPolls (cell : Value) : List (List Value) → TailOutcome
  | [] => .ok cell
  | poll :: rest =>
    match feedRecords cell poll with
    | .ok c => runTailerPolls c rest
    | .valueError c => .valueError c

/-- A poll batch holding a non-dictionary value makes `feedRecords`
raise. -/
theorem feedRecords_valueError_of_nonDict (cell : Value) (poll : List Value)
    (h : poll.all Value.isDict = false) :
    (feedRecords cell poll).crashed = true := by
  induction poll generalizing cell with
  | nil => simp [List.all] at h
  | cons v vs ih =>
    cases hv : v.isDict with
    | false => simp [feedRecords, hv, TailOutcome.crashed]
    | true =>
      simp only [List.all_cons, hv, Bool.true_and] at h
      simp only [feedRecords, hv, if_true]
      exact ih v h

/-- A poll batch of dictionaries only never raises, and leaves the cell at
the batch's last element. -/
theorem feedRecords_ok_of_allDict (cell : Value) (poll : List Value)
    (h : poll.all Value.isDict = true) :
    feedRecords cell poll = .ok (poll.getLastD cell) := by
  induction poll generalizing cell with
  | nil => simp [feedRecords, List.getLastD]
  | cons v vs ih =>
    simp only [List.all_cons, Bool.and_eq_true] at h
    simp only [feedRecords, h.1, if_true, List.getLastD_cons]
    exact ih v h.2

/-! ## The wire codec's packer

A model of the external `msgpack.Packer` (`packer.pack` in
`LogServer.serve`, line 112): big-endian MessagePack encoding of a
`Value` as a list of byte values `< 256`. -/

/-- Big-endian 16-bit bytes of `n`. -/
def be16 (n : Nat) : List Nat := [n / 256 % 256, n % 256]

/-- Big-endian 32-bit bytes of `n`. -/
def be32 (n : Nat) : List Nat :=
  [n / 16777216 % 256, n / 65536 % 256, n / 256 % 256, n % 256]

/-- Big-endian 64-bit bytes of `n`. -/
def be64 (n : Nat) : List Nat := be32 (n / 4294967296) ++ be32 n

/-- MessagePack encoding of an integer (positive/negative fixint,
uint8/16/32/64, int8/16/32/64). -/
def packInt (n : Int) : List Nat :=
  if 0 ≤ n then
    let m := n.toNat
    if m ≤ 127 then [m]
    else if m ≤ 255 then [204, m]
    else if m ≤ 65535 then 205 :: be16 m
    else if m ≤ 4294967295 then 206 :: be32 m
    else 207 :: be64 (m % 18446744073709551616)
  else
    if -32 ≤ n then [(n + 256).toNat]
    else if -128 ≤ n then [208, (n + 256).toNat]
    else if -32768 ≤ n then 209 :: be16 (n + 65536).toNat
    else if -2147483648 ≤ n then 210 :: be32 (n + 4294967296).toNat
    else 211 :: be64 ((n + 18446744073709551616).toNat % 18446744073709551616)

/-- UTF-8 bytes of a string, as natural numbers. -/
def utf8Bytes (s : String) : List Nat := s.toUTF8.toList.map (fun b => b.toNat)

/-- MessagePack header for a string of `len` UTF-8 bytes (fixstr, str8,
str16, str32); `use_bin_type=True` keeps strings in the str family. -/
def packStrHeader (len : Nat) : List Nat :=
  if len ≤ 31 then [160 + len]
  else if len ≤ 255 then [217, len]
  else if len ≤ 65535 then 218 :: be16 len
  else 219 :: be32 len

/-- MessagePack header for an array of `len` elements. -/
def packArrayHeader (len : Nat) : List Nat :=
  if len ≤ 15 then [144 + len]
  else if len ≤ 65535 then 220 :: be16 len
  else 221 :: be32 len

/-- MessagePack header for a map of `len` key-value pairs; the empty map
encodes as the single byte `0x80 = 128`. -/
def packMapHeader (len : Nat) : List Nat :=
  if len ≤ 15 then [128 + len]
  else if len ≤ 65535 then 222 :: be16 len
  else 223 :: be32 len

mutual

/-- The call `msgpack.Packer(...).pack(v)`: the byte encoding of a value. -/
def packValue : Value → List Nat
  | .nil => [192]
  | .bool false => [194]
  | .bool true => [195]
  | .int n => packInt n
  | .str s => packStrHeader (utf8Bytes s).length ++ utf8Bytes s
  | .list items => packArrayHeader items.length ++ packItems items
  | .dict pairs => packMapHeader pairs.length ++ packPairs pairs

/-- Concatenated encodings of the elements of an array. -/
def packItems : List Value → List Nat
  | [] => []
  | v :: vs => packValue v ++ packItems vs

/-- Concatenated encodings of the key-value pairs of a map. -/
def packPairs : List (String × Value) → List Nat
  | [] => []
  | (k, v) :: ps =>
    (packStrHeader (utf8Bytes k).length ++ utf8Bytes k) ++ packValue v ++ packPairs ps

end

/-! ## The per-connection serve loop -/

/-- What one `await loop.sock_recv` in `LogServer.serve` (line 103) hands
to the loop body: a zero-length read (client closed), bytes that fail
UTF-8 decoding (line 108), or bytes that decode to the string `s`.
`brokenPipe` stands for a `BrokenPipeError` raised while interacting with
the socket (caught at line 117). -/
inductive RecvEvent where
  | closed
  | badUtf8
  | msg (s : String)
  | brokenPipe
deriving DecidableEq

/-- Result of one iteration of the `while` body of `LogServer.serve`
(lines 102-116): the reply sent on the socket, if any; the value of the
`keep_going` flag afterwards; and whether control returns to the `while`
check (`true`) or leaves the loop (`false`). -/
structure ServeStepResult where
  reply : Option (List Nat)
  keepGoing : Bool
  loopContinues : Bool

/-- Python's `str.strip()` (no argument): remove leading and trailing
whitespace.  Implemented by structural recursion on the character list so
that it evaluates inside the kernel. -/
def pyStrip (s : String) : String :=
  String.mk (((s.toList.dropWhile Char.isWhitespace).reverse.dropWhile
    Char.isWhitespace).reverse)

/-- One iteration of the request loop of `LogServer.serve`, for a
connection whose recv produced `ev`, with `cell` the current value of
`self.last_log` and `kg` the current `keep_going` flag:

* zero-length read → `break` (line 105);
* `UnicodeDecodeError` → warning logged, `continue` (lines 108-110);
* request `"get"` (after `.strip()`) → send `packer.pack(self.last_log)`
  (lines 111-113), stay in the loop;
* request `"stop"` → clear the flag, no reply (lines 114-115);
* anything else → no reply, stay in the loop. -/
def serveRecvStep (cell : Value) (kg : Bool) : RecvEvent → ServeStepResult
  | .closed => ⟨none, kg, false⟩
  | .badUtf8 => ⟨none, kg, true⟩
  | .brokenPipe => ⟨none, kg, false⟩
  | .msg s =>
    let request := pyStrip s
    if request = "get" then ⟨some (packValue cell), kg, true⟩
    else if request = "stop" then ⟨none, false, true⟩
    else ⟨none, kg, true⟩

/-- The assignment of an empty dict to `self.last_log` in
`LogServer.__init__` (line 43). -/
def initLastLog : Value := Value.dict []

/-! ## Claims about the decode loop and the serve loop -/

/-- A run of the tailer in which the first poll yields the non-mapping
value `42` and the next poll yields a valid mapping. -/
def badPolls : List (List Value) := [[Value.int 42], [Value.dict [("foo", Value.int 7)]]]

/-- Claim C1, counterexample. The claim says a malformed record is skipped
and the tailer loop keeps decoding subsequent valid records.  On the
code, the `ValueError` raised at `log_server.py` line 83 is not caught
(only `BrokenPipeError` is, line 85), so the run over `badPolls`
terminates with the `ValueError` and the valid record of the second poll
is never published to `self.last_log`. -/
theorem malformed_record_not_skipped_cex :
    runTailerPolls initLastLog badPolls = .valueError (Value.dict []) ∧
    runTailerPolls initLastLog badPolls ≠ .ok (Value.dict [("foo", Value.int 7)]) := by
  refine ⟨rfl, fun h => ?_⟩
  rw [show runTailerPolls initLastLog badPolls = .valueError (Value.dict []) from rfl] at h
  exact TailOutcome.noConfusion h

/-- Claim C1, amended. If a poll's batch of decoded values contains a
non-mapping, `LogServer.unpack` raises an uncaught `ValueError`: the
tailer loop terminates and the remaining polls are never processed —
the run over `poll :: rest` crashes and its outcome does not depend on
`rest`. -/
theorem malformed_record_terminates_tailer (cell : Value) (poll : List Value)
    (rest : List (List Value)) (h : poll.all Value.isDict = false) :
    (runTailerPolls cell (poll :: rest)).crashed = true ∧
    runTailerPolls cell (poll :: rest) = runTailerPolls cell [poll] := by
  have hc := feedRecords_valueError_of_nonDict cell poll h
  cases hfr : feedRecords cell poll with
  | ok c => rw [hfr] at hc; simp [TailOutcome.crashed] at hc
  | valueError c =>
    exact ⟨by simp [runTailerPolls, hfr, TailOutcome.crashed],
           by simp [runTailerPolls, hfr]⟩

/-- Witness for `malformed_record_terminates_tailer` at a concrete run. -/
theorem malformed_record_terminates_tailer_witness :
    (runTailerPolls initLastLog ([Value.int 42] :: [[Value.dict []]])).crashed = true ∧
    runTailerPolls initLastLog ([Value.int 42] :: [[Value.dict []]]) =
      runTailerPolls initLastLog [[Value.int 42]] :=
  malformed_record_terminates_tailer initLastLog [Value.int 42] [[Value.dict []]] rfl

/-- Claim C3. When one poll's batch is a non-empty sequence of mapping
records `r1..rk`, the loop of `log_server.py` lines 81-84 assigns each in
turn into `self.last_log` with no `await` in between, so after the poll
the latest-record cell holds exactly `rk` (`poll.getLastD cell`), and a
subsequent `get` replies with the encoding of `rk` — earlier records of
the batch are no longer observable. -/
theorem last_record_of_poll_wins (cell : Value) (poll : List Value)
    (_hne : poll ≠ []) (hall : poll.all Value.isDict = true) :
    feedRecords cell poll = .ok (poll.getLastD cell) ∧
    (serveRecvStep (poll.getLastD cell) true (.msg "get")).reply =
      some (packValue (poll.getLastD cell)) := by
  exact ⟨feedRecords_ok_of_allDict cell poll hall, rfl⟩

/-- A two-record poll batch used to witness `last_record_of_poll_wins`. -/
def pollW : List Value := [Value.dict [("a", Value.int 1)], Value.dict [("b", Value.int 2)]]

/-- Witness for `last_record_of_poll_wins` on a concrete two-record poll. -/
theorem last_record_of_poll_wins_witness :
    feedRecords initLastLog pollW = .ok (pollW.getLastD initLastLog) ∧
    (serveRecvStep (pollW.getLastD initLastLog) true (.msg "get")).reply =
      some (packValue (pollW.getLastD initLastLog)) :=
  last_record_of_poll_wins initLastLog pollW (List.cons_ne_nil _ _) rfl

/-- Claim C4. A `get` request served while `self.last_log` still holds its
initial value `{}` replies with `packer.pack({})`, the MessagePack
encoding of the empty map — the single byte `0x80 = 128`, so the reply
is neither an error nor empty, and the serve loop continues. -/
theorem get_before_first_record (cell : Value) (kg : Bool) (s : String)
    (hs : pyStrip s = "get") (hc : cell = initLastLog) :
    (serveRecvStep cell kg (.msg s)).reply = some (packValue (Value.dict [])) ∧
    packValue (Value.dict []) = [128] ∧
    (serveRecvStep cell kg (.msg s)).loopContinues = true := by
  subst hc
  refine ⟨?_, rfl, ?_⟩ <;> simp [serveRecvStep, hs, initLastLog]

/-- Witness for `get_before_first_record` at the literal request `"get"`. -/
theorem get_before_first_record_witness :
    (serveRecvStep initLastLog true (.msg "get")).reply =
      some (packValue (Value.dict [])) ∧
    packValue (Value.dict []) = [128] ∧
    (serveRecvStep initLastLog true (.msg "get")).loopContinues = true :=
  get_before_first_record initLastLog true "get" rfl rfl

/-- Claim C6. A request whose stripped text is neither `"get"` nor `"stop"`,
or a request whose bytes fail UTF-8 decoding, produces no reply, leaves
the `keep_going` flag untouched and returns control to the serve loop's
`while` check (`log_server.py` lines 102-116). -/
theorem unknown_request_ignored (cell : Value) (kg : Bool) (s : String)
    (h1 : pyStrip s ≠ "get") (h2 : pyStrip s ≠ "stop") :
    serveRecvStep cell kg (.msg s) = ⟨none, kg, true⟩ ∧
    serveRecvStep cell kg .badUtf8 = ⟨none, kg, true⟩ := by
  refine ⟨?_, rfl⟩
  simp [serveRecvStep, h1, h2]

/-- Witness for `unknown_request_ignored` at the request `"hello"`. -/
theorem unknown_request_ignored_witness :
    serveRecvStep initLastLog true (.msg "hello") = ⟨none, true, true⟩ ∧
    serveRecvStep initLastLog true .badUtf8 = ⟨none, true, true⟩ :=
  unknown_request_ignored initLastLog true "hello" (by decide) (by decide)

/-! ## The tailer at byte level

`LogServer.unpack` (lines 67-87) at the granularity of the file reads:
the file is a list of byte values, the read cursor an offset, and the
incremental unpacker is abstracted as a function `decode` from the bytes
fed so far (pending buffer plus new chunk) to the values it yields and
its leftover buffer. -/

/-- The tailer's mutable state: the file object's read offset, the
unpacker's pending byte buffer, and `self.last_log`. -/
structure TailerState where
  pos : Nat
  decoderBuf : List Nat
  lastLog : Value

/-- The call `file.read(4096)` at offset `pos`: the next at most 4096 bytes. -/
def readChunk (file : List Nat) (pos : Nat) : List Nat :=
  (file.drop pos).take 4096

/-- The state of the tailer right after the `async with aiofiles.open`
preamble of `LogServer.unpack` (lines 71-73): `file.seek(0, 2)` puts the
cursor at end-of-file, the `msgpack.Unpacker` starts with an empty
buffer, and `self.last_log` still holds `{}` from `__init__`. -/
def initTailer (file0 : List Nat) : TailerState :=
  { pos := file0.length, decoderBuf := [], lastLog := initLastLog }

/-- One iteration of the `while self.__keep_going` body of
`LogServer.unpack` (lines 75-87) against the current file contents
`file`:

* `data = await file.read(4096)`; if no data, `continue` — the state is
  returned untouched (lines 76-78);
* otherwise `unpacker.feed(data)` and the `for unpacked in unpacker`
  loop runs (`feedRecords`); a `ValueError` escapes the iteration and
  kills the coroutine (`.error`). -/
def pollOnce (decode : List Nat → List Value × List Nat) (file : List Nat)
    (st : TailerState) : Except String TailerState :=
  if readChunk file st.pos = [] then .ok st
  else
    match feedRecords st.lastLog (decode (st.decoderBuf ++ readChunk file st.pos)).1 with
    | .ok c =>
      .ok ⟨st.pos + (readChunk file st.pos).length,
           (decode (st.decoderBuf ++ readChunk file st.pos)).2, c⟩
    | .valueError _ => .error "ValueError"

/-- Iterated polls of the tailer: `snaps` lists the file contents seen by
each successive poll (the writer may have appended in between).  The
trace records, for each poll that runs, the file contents and the read
offset the poll starts from; an uncaught exception ends the loop. -/
def pollTrace (decode : List Nat → List Value × List Nat) (st : TailerState) :
    List (List Nat) → List (List Nat × Nat)
  | [] => []
  | f :: fs =>
    (f, st.pos) ::
      match pollOnce decode f st with
      | .ok st' => pollTrace decode st' fs
      | .error _ => []

/-- A poll never moves the read cursor backward. -/
theorem pollOnce_pos_mono (decode : List Nat → List Value × List Nat)
    (file : List Nat) (st st' : TailerState)
    (h : pollOnce decode file st = .ok st') : st.pos ≤ st'.pos := by
  unfold pollOnce at h
  by_cases hc : readChunk file st.pos = []
  · rw [if_pos hc] at h; cases h; exact Nat.le_refl _
  · rw [if_neg hc] at h
    cases hfr : feedRecords st.lastLog ((decode (st.decoderBuf ++ readChunk file st.pos)).1) with
    | ok c => rw [hfr] at h; cases h; exact Nat.le_add_right _ _
    | valueError c => rw [hfr] at h; cases h

/-- Reading at an offset past a prefix `file0` only ever touches the part
of the file appended after `file0`. -/
theorem readChunk_append (file0 app : List Nat) (pos : Nat)
    (h : file0.length ≤ pos) :
    readChunk (file0 ++ app) pos = readChunk app (pos - file0.length) := by
  unfold readChunk
  have hpos : pos = file0.length + (pos - file0.length) := by omega
  rw [hpos, List.drop_append, Nat.add_sub_cancel_left]

/-- Boolean check on one `pollTrace` entry `(f, p)`: the poll started at
or past offset `n`, and the chunk it read is a chunk of `f.drop n` — no
byte below offset `n` is ever fed to the decoder. -/
def chunkBeyond (n : Nat) (e : List Nat × Nat) : Bool :=
  decide (n ≤ e.2) && (readChunk e.1 e.2 == readChunk (e.1.drop n) (e.2 - n))

/-- Every poll of a trace that starts at or past `file0.length` stays at
or past it, and reads only appended bytes. -/
theorem pollTrace_chunkBeyond (decode : List Nat → List Value × List Nat)
    (file0 : List Nat) (snaps : List (List Nat)) (st : TailerState)
    (hpos : file0.length ≤ st.pos)
    (hgrow : ∀ f ∈ snaps, ∃ app, f = file0 ++ app) :
    (pollTrace decode st snaps).all (chunkBeyond file0.length) = true := by
  induction snaps generalizing st with
  | nil => rfl
  | cons f fs ih =>
    obtain ⟨app, happ⟩ := hgrow f (List.mem_cons_self f fs)
    have hchunk : readChunk f st.pos = readChunk (f.drop file0.length) (st.pos - file0.length) := by
      subst happ
      rw [readChunk_append file0 app st.pos hpos, List.drop_left]
    simp only [pollTrace, List.all_cons, Bool.and_eq_true]
    refine ⟨?_, ?_⟩
    · simp [chunkBeyond, hpos, hchunk]
    · cases hp : pollOnce decode f st with
      | ok st' =>
        exact ih st' (Nat.le_trans hpos (pollOnce_pos_mono decode f st st' hp))
          (fun g hg => hgrow g (List.mem_cons_of_mem f hg))
      | error e => rfl

/-- Claim C5. Here `LogServer.unpack` opens the log file and seeks to
end-of-file (`file.seek(0, 2)`, line 72) before its first poll, so the
first poll starts at offset `file0.length`, every later poll starts at
or past that offset, and every chunk fed to the decoder consists of
bytes appended after startup: the records fully contained in the
original `file0` are never read, decoded, or published. -/
theorem startup_seek_skips_history (decode : List Nat → List Value × List Nat)
    (file0 : List Nat) (snaps : List (List Nat))
    (hgrow : ∀ f ∈ snaps, ∃ app, f = file0 ++ app) :
    (initTailer file0).pos = file0.length ∧
    (pollTrace decode (initTailer file0) snaps).all (chunkBeyond file0.length) = true :=
  ⟨rfl, pollTrace_chunkBeyond decode file0 snaps (initTailer file0)
    (Nat.le_refl _) hgrow⟩

/-- A decoder stub for witnesses: yields nothing, keeps its buffer. -/
def decodeNothing : List Nat → List Value × List Nat := fun bs => ([], bs)

/-- Witness for `startup_seek_skips_history`: a three-byte pre-existing
file that grows by one byte between the two polls. -/
theorem startup_seek_skips_history_witness :
    (initTailer [1, 2, 3]).pos = [1, 2, 3].length ∧
    (pollTrace decodeNothing (initTailer [1, 2, 3])
      [[1, 2, 3, 9], [1, 2, 3, 9, 8]]).all (chunkBeyond [1, 2, 3].length) = true :=
  startup_seek_skips_history decodeNothing [1, 2, 3] [[1, 2, 3, 9], [1, 2, 3, 9, 8]]
    (by
      intro f hf
      simp only [List.mem_cons, List.not_mem_nil, or_false] at hf
      rcases hf with hf | hf
      · exact ⟨[9], by rw [hf]; rfl⟩
      · exact ⟨[9, 8], by rw [hf]; rfl⟩)

/-- Claim C7. A poll whose `file.read(4096)` returns zero bytes hits the
`if not data: continue` branch (`log_server.py` lines 76-78): it
produces no record and returns the tailer state — read cursor, decoder
buffer, and `self.last_log` — exactly unchanged. -/
theorem empty_read_is_noop (decode : List Nat → List Value × List Nat)
    (file : List Nat) (st : TailerState) (h : readChunk file st.pos = []) :
    pollOnce decode file st = .ok st := by
  unfold pollOnce
  rw [if_pos h]

/-- Witness for `empty_read_is_noop`: polling a two-byte file whose
cursor already sits at end-of-file. -/
theorem empty_read_is_noop_witness :
    pollOnce decodeNothing [1, 2] ⟨2, [5], initLastLog⟩ =
      .ok ⟨2, [5], initLastLog⟩ :=
  empty_read_is_noop decodeNothing [1, 2] ⟨2, [5], initLastLog⟩ rfl

/-! ## File resolution: `find_log_file` (`mpacklog/utils.py`)

The filesystem is abstracted as the answers the standard library gives
to the four calls `find_log_file` makes: `os.path.exists`,
`os.path.isfile`, `glob.glob(os.path.join(path, "*.mpack"))` and
`os.path.getmtime`.  Modification times are modelled as natural numbers;
only their ordering matters. -/

structure FileSystem where
  pathDoesExist : String → Bool
  isfile : String → Bool
  globMpack : String → List String
  getmtime : String → Nat

/-- Python's `max(xs, key=k)` on a non-empty list `x :: xs`: iterate,
replacing the current best only on a strictly greater key, so the first
element attaining the maximum wins. -/
def pyMaxByKey (k : String → Nat) (x : String) (xs : List String) : String :=
  xs.foldl (fun best y => if k best < k y then y else best) x

/-- The function `find_log_file` (`utils.py` lines 14-30): return the path itself when
it exists and is a regular file; otherwise glob `*.mpack` in the
directory and take the file with the greatest mtime.  Python's `max` on
an empty sequence raises `ValueError`, modelled by `.error`. -/
def find_log_file (fs : FileSystem) (log_path : String) : Except String String :=
  if fs.pathDoesExist log_path && fs.isfile log_path then .ok log_path
  else
    match fs.globMpack log_path with
    | [] => .error "ValueError: max() arg is an empty sequence"
    | x :: xs => .ok (pyMaxByKey fs.getmtime x xs)

/-- The function `pyMaxByKey` returns an element of the list it maximises over. -/
theorem pyMaxByKey_mem (k : String → Nat) (x : String) (xs : List String) :
    pyMaxByKey k x xs ∈ x :: xs := by
  induction xs generalizing x with
  | nil => exact List.mem_singleton.mpr rfl
  | cons y ys ih =>
    unfold pyMaxByKey
    simp only [List.foldl_cons]
    by_cases h : k x < k y
    · rw [if_pos h]
      exact List.mem_cons_of_mem x (ih y)
    · rw [if_neg h]
      rcases List.mem_cons.mp (ih x) with h' | h'
      · exact List.mem_cons.mpr (Or.inl h')
      · exact List.mem_cons_of_mem x (List.mem_cons_of_mem y h')

/-- The function `pyMaxByKey` dominates every element of the list. -/
theorem pyMaxByKey_ge (k : String → Nat) (x : String) (xs : List String) :
    ∀ g ∈ x :: xs, k g ≤ k (pyMaxByKey k x xs) := by
  induction xs generalizing x with
  | nil =>
    intro g hg
    rw [List.mem_singleton.mp hg]
    exact Nat.le_refl _
  | cons y ys ih =>
    intro g hg
    have hfold : pyMaxByKey k x (y :: ys) =
        pyMaxByKey k (if k x < k y then y else x) ys := rfl
    rw [hfold]
    have hz : k (if k x < k y then y else x) ≤
        k (pyMaxByKey k (if k x < k y then y else x) ys) :=
      ih _ _ (List.mem_cons_self _ _)
    have hx : k x ≤ k (if k x < k y then y else x) := by
      by_cases h : k x < k y
      · rw [if_pos h]; exact Nat.le_of_lt h
      · rw [if_neg h]
    have hy : k y ≤ k (if k x < k y then y else x) := by
      by_cases h : k x < k y
      · rw [if_pos h]
      · rw [if_neg h]; exact Nat.le_of_not_lt h
    rcases List.mem_cons.mp hg with h1 | h1
    · subst h1; exact Nat.le_trans hx hz
    · rcases List.mem_cons.mp h1 with h2 | h2
      · subst h2; exact Nat.le_trans hy hz
      · exact ih _ g (List.mem_cons_of_mem _ h2)

/-- Boolean check that `r` is an `.ok` result naming a member of `files`
whose mtime is at least that of every member of `files`. -/
def okMostRecent (fs : FileSystem) (files : List String) (r : Except String String) : Bool :=
  match r with
  | .ok f =>
    files.contains f && files.all (fun g => decide (fs.getmtime g ≤ fs.getmtime f))
  | .error _ => false

/-- Claim C8. Here `find_log_file` returns the path itself when it names an
existing regular file; otherwise — provided the directory holds at least
one `*.mpack` file — it returns a globbed `*.mpack` file whose
modification time is maximal among them (Python's `max` keeps the first
maximiser on ties). -/
theorem find_log_file_resolution (fs : FileSystem) (p : String) :
    ((fs.pathDoesExist p && fs.isfile p) = true → find_log_file fs p = .ok p) ∧
    ((fs.pathDoesExist p && fs.isfile p) = false → fs.globMpack p ≠ [] →
      okMostRecent fs (fs.globMpack p) (find_log_file fs p) = true) := by
  constructor
  · intro h
    unfold find_log_file
    rw [if_pos h]
  · intro h hne
    unfold find_log_file
    rw [if_neg (by simp [h])]
    cases hg : fs.globMpack p with
    | nil => exact absurd hg hne
    | cons x xs =>
      show okMostRecent fs (x :: xs) (.ok (pyMaxByKey fs.getmtime x xs)) = true
      simp only [okMostRecent, List.contains, Bool.and_eq_true, List.all_eq_true,
        decide_eq_true_iff]
      exact ⟨List.elem_eq_true_of_mem (pyMaxByKey_mem fs.getmtime x xs),
             fun g hgmem => pyMaxByKey_ge fs.getmtime x xs g hgmem⟩

/-- A concrete filesystem for the `find_log_file` witnesses: `"a.mpack"`
is a regular file; the directory `"logs"` holds two `*.mpack` files with
distinct mtimes; everything else is absent. -/
def fsW : FileSystem where
  pathDoesExist := fun p => p = "a.mpack" || p = "logs"
  isfile := fun p => p = "a.mpack"
  globMpack := fun p => if p = "logs" then ["logs/old.mpack", "logs/new.mpack"] else []
  getmtime := fun p => if p = "logs/new.mpack" then 10 else 3

/-- Witness for `find_log_file_resolution` on `fsW`: a file path is
returned as-is, and the directory resolves to the newest `*.mpack`. -/
theorem find_log_file_resolution_witness :
    find_log_file fsW "a.mpack" = .ok "a.mpack" ∧
    okMostRecent fsW (fsW.globMpack "logs") (find_log_file fsW "logs") = true :=
  ⟨(find_log_file_resolution fsW "a.mpack").1 (by decide),
   (find_log_file_resolution fsW "logs").2 (by decide) (by decide)⟩

/-- Claim C10. When the path is not an existing regular file and the glob
of `*.mpack` files comes back empty, `max()` at `utils.py` line 24 is
applied to an empty sequence and raises `ValueError`: `find_log_file`
produces an exception for its caller, not a fallback path. -/
theorem find_log_file_empty_raises (fs : FileSystem) (p : String)
    (h : (fs.pathDoesExist p && fs.isfile p) = false)
    (hg : fs.globMpack p = []) :
    find_log_file fs p = .error "ValueError: max() arg is an empty sequence" := by
  unfold find_log_file
  rw [if_neg (by simp [h]), hg]

/-- Witness for `find_log_file_empty_raises` at a path `fsW` knows
nothing about. -/
theorem find_log_file_empty_raises_witness :
    find_log_file fsW "missing" = .error "ValueError: max() arg is an empty sequence" :=
  find_log_file_empty_raises fsW "missing" (by decide) (by decide)

/-! ## The service lifecycle as a transition system

`LogServer.run_async` runs `unpack` and `listen` concurrently on one
asyncio event loop; `listen` spawns one `serve` task per accepted
connection, and `stop` is executed by a caller task.  Control can change
hands only at `await` points, so each task is modelled by a program
counter ranging over its suspension points, and a run of the service is
the fold of a `step` function over an arbitrary schedule (a list of
`Step`s).  A `Step` that is not enabled (wrong program counter) leaves
the state unchanged, so every list of `Step`s denotes a legal
interleaving. -/

/-- Suspension points of `LogServer.unpack`: about to test
`while self.__keep_going` (line 74), suspended in `file.read`/the rate
limiter (line 75), exited normally, or killed by an uncaught exception. -/
inductive TailerPc where
  | check
  | read
  | done
  | crashed
deriving DecidableEq

/-- Suspension points of `LogServer.listen`: about to test the `while`
condition (line 131), suspended in `loop.sock_accept` (line 132), or
exited (lines 134-135). -/
inductive AcceptPc where
  | check
  | acceptWait
  | done
deriving DecidableEq

/-- Suspension points of one `LogServer.serve` task: about to test the
`while` condition (line 102), suspended in `loop.sock_recv` (line 103),
or terminated (lines 119-121). -/
inductive ConnPc where
  | check
  | recv
  | done
deriving DecidableEq

/-- Progress of a `LogServer.stop` call: not called yet; called — the
loopback socket is connected, the flag cleared, `"stop"` sent, and the
caller sits in the `while self.__stopped < 2` wait (lines 57-64); or
returned (line 65). -/
inductive StopPhase where
  | notCalled
  | waiting
  | returned
deriving DecidableEq

/-- The shared state of a running `LogServer` plus the program counters
of its tasks: the `__keep_going` flag, the `__stopped` counter,
`last_log`, the tailer and accept-loop counters, one counter per spawned
`serve` task, the number of TCP connections awaiting accept, and the
state of the `stop()` caller. -/
structure Sys where
  keepGoing : Bool
  stopped : Nat
  lastLog : Value
  tailerPc : TailerPc
  acceptPc : AcceptPc
  conns : List ConnPc
  pending : Nat
  stopPhase : StopPhase

/-- One scheduling decision: which task runs from its current suspension
point to its next one, together with the external input it consumes
(bytes decoded by the tailer's poll, a connection's recv outcome, a new
client connecting). -/
inductive Step where
  | tailerCheck
  | tailerRead (vals : List Value)
  | acceptCheck
  | acceptConn
  | clientConnect
  | serveCheck (i : Nat)
  | serveRecv (i : Nat) (ev : RecvEvent)
  | stopCall
  | stopWait

/-- The small-step semantics.  Each arm is one segment of straight-line
Python between two `await` points:

* `tailerCheck`/`tailerRead`: lines 74-87 of `log_server.py`; a batch
  containing a non-mapping kills the coroutine (`ValueError`, line 83);
* `acceptCheck`/`acceptConn`: lines 131-135 — note `listen` increments
  `self.__stopped` when its `while` test fails, and `unpack` never does;
* `serveCheck`/`serveRecv`: lines 102-121 — every exit of the serve loop
  runs `client.close(); self.__stopped += 1`;
* `stopCall`: lines 57-62 — `connect` (a pending connection appears),
  `self.__keep_going = False`, send `"stop"`;
* `stopWait`: lines 63-65 — the wait returns once `self.__stopped >= 2`. -/
def step (s : Sys) : Step → Sys
  | .tailerCheck =>
    if s.tailerPc = .check then
      if s.keepGoing then { s with tailerPc := .read }
      else { s with tailerPc := .done }
    else s
  | .tailerRead vals =>
    if s.tailerPc = .read then
      match feedRecords s.lastLog vals with
      | .ok c => { s with lastLog := c, tailerPc := .check }
      | .valueError c => { s with lastLog := c, tailerPc := .crashed }
    else s
  | .acceptCheck =>
    if s.acceptPc = .check then
      if s.keepGoing then { s with acceptPc := .acceptWait }
      else { s with acceptPc := .done, stopped := s.stopped + 1 }
    else s
  | .acceptConn =>
    if s.acceptPc = .acceptWait then
      if 0 < s.pending then
        { s with pending := s.pending - 1, conns := s.conns ++ [ConnPc.check],
                 acceptPc := .check }
      else s
    else s
  | .clientConnect => { s with pending := s.pending + 1 }
  | .serveCheck i =>
    match s.conns.get? i with
    | some ConnPc.check =>
      if s.keepGoing then { s with conns := s.conns.set i ConnPc.recv }
      else { s with conns := s.conns.set i ConnPc.done, stopped := s.stopped + 1 }
    | _ => s
  | .serveRecv i ev =>
    match s.conns.get? i with
    | some ConnPc.recv =>
      match ev with
      | .closed => { s with conns := s.conns.set i ConnPc.done, stopped := s.stopped + 1 }
      | .brokenPipe => { s with conns := s.conns.set i ConnPc.done, stopped := s.stopped + 1 }
      | .badUtf8 => { s with conns := s.conns.set i ConnPc.check }
      | .msg m =>
        if pyStrip m = "stop" then
          { s with keepGoing := false, conns := s.conns.set i ConnPc.check }
        else { s with conns := s.conns.set i ConnPc.check }
    | _ => s
  | .stopCall =>
    if s.stopPhase = .notCalled then
      { s with keepGoing := false, pending := s.pending + 1, stopPhase := .waiting }
    else s
  | .stopWait =>
    if s.stopPhase = .waiting then
      if 2 ≤ s.stopped then { s with stopPhase := .returned } else s
    else s

/-- Run a schedule from a state. -/
def run (s : Sys) (steps : List Step) : Sys := steps.foldl step s

/-- The state right after `__init__` (lines 41-45) with all three
coroutines started at their `while` tests and no client connected. -/
def initState : Sys where
  keepGoing := true
  stopped := 0
  lastLog := initLastLog
  tailerPc := .check
  acceptPc := .check
  conns := []
  pending := 0
  stopPhase := .notCalled

/-- Number of serve tasks that have terminated. -/
def countDone : List ConnPc → Nat
  | [] => 0
  | c :: rest => (if c = ConnPc.done then 1 else 0) + countDone rest

/-- One when the accept loop has terminated, else zero. -/
def acceptDoneCount (s : Sys) : Nat := if s.acceptPc = .done then 1 else 0

/-- Setting a non-terminated slot to a non-terminated value keeps the
count of terminated serve tasks. -/
theorem countDone_set_of_ne_done (l : List ConnPc) (i : Nat) (c d : ConnPc)
    (hget : l.get? i = some c) (hc : c ≠ ConnPc.done) (hd : d ≠ ConnPc.done) :
    countDone (l.set i d) = countDone l := by
  induction l generalizing i with
  | nil => simp [List.set]
  | cons x xs ih =>
    cases i with
    | zero =>
      simp only [List.get?] at hget
      cases hget
      simp [List.set, countDone, hc, hd]
    | succ j =>
      simp only [List.get?] at hget
      simp [List.set, countDone, ih j hget]

/-- Terminating a live serve task raises the count by one. -/
theorem countDone_set_done (l : List ConnPc) (i : Nat) (c : ConnPc)
    (hget : l.get? i = some c) (hc : c ≠ ConnPc.done) :
    countDone (l.set i ConnPc.done) = countDone l + 1 := by
  induction l generalizing i with
  | nil => simp [List.get?] at hget
  | cons x xs ih =>
    cases i with
    | zero =>
      simp only [List.get?] at hget
      cases hget
      simp [List.set, countDone, hc]
      omega
    | succ j =>
      simp only [List.get?] at hget
      simp only [List.set, countDone, ih j hget]
      omega

/-- Spawning a fresh serve task does not change the count. -/
theorem countDone_append_check (l : List ConnPc) :
    countDone (l ++ [ConnPc.check]) = countDone l := by
  induction l with
  | nil => simp [countDone]
  | cons x xs ih => simp [countDone, ih]

/-- Per-step preservation: the terminated tasks counted by `__stopped`
never exceed `__stopped`, because every serve-loop or accept-loop exit
increments the counter exactly once. -/
theorem stopped_dominates_step (s : Sys) (a : Step)
    (h : countDone s.conns + acceptDoneCount s ≤ s.stopped) :
    countDone (step s a).conns + acceptDoneCount (step s a) ≤ (step s a).stopped := by
  cases a with
  | tailerCheck =>
    simp only [step]
    split
    · split <;> simpa [acceptDoneCount] using h
    · exact h
  | tailerRead vals =>
    simp only [step]
    split
    · split <;> simpa [acceptDoneCount] using h
    · exact h
  | acceptCheck =>
    simp only [step]
    split
    · rename_i hpc
      split
      · simp only [acceptDoneCount] at h ⊢
        rw [hpc] at h
        simp at h ⊢
        omega
      · simp only [acceptDoneCount] at h ⊢
        rw [hpc] at h
        simp at h ⊢
        omega
    · exact h
  | acceptConn =>
    simp only [step]
    split
    · rename_i hpc
      split
      · simp only [acceptDoneCount] at h ⊢
        rw [hpc] at h
        simp [countDone_append_check] at h ⊢
        omega
      · exact h
    · exact h
  | clientConnect =>
    simpa [step, acceptDoneCount] using h
  | serveCheck i =>
    simp only [step]
    split
    · rename_i hget
      split
      · simp only [acceptDoneCount] at h ⊢
        rw [countDone_set_of_ne_done s.conns i ConnPc.check ConnPc.recv hget
          (by intro hne; cases hne) (by intro hne; cases hne)]
        simpa using h
      · simp only [acceptDoneCount] at h ⊢
        rw [countDone_set_done s.conns i ConnPc.check hget (by intro hne; cases hne)]
        omega
    · exact h
  | serveRecv i ev =>
    simp only [step]
    split
    · rename_i hget
      cases ev with
      | closed =>
        simp only [acceptDoneCount] at h ⊢
        rw [countDone_set_done s.conns i ConnPc.recv hget (by intro hne; cases hne)]
        omega
      | brokenPipe =>
        simp only [acceptDoneCount] at h ⊢
        rw [countDone_set_done s.conns i ConnPc.recv hget (by intro hne; cases hne)]
        omega
      | badUtf8 =>
        simp only [acceptDoneCount] at h ⊢
        rw [countDone_set_of_ne_done s.conns i ConnPc.recv ConnPc.check hget
          (by intro hne; cases hne) (by intro hne; cases hne)]
        simpa using h
      | msg m =>
        dsimp only
        split <;>
          (simp only [acceptDoneCount] at h ⊢
           rw [countDone_set_of_ne_done s.conns i ConnPc.recv ConnPc.check hget
             (by intro hne; cases hne) (by intro hne; cases hne)]
           simpa using h)
    · exact h
  | stopCall =>
    simp only [step]
    split
    · simpa [acceptDoneCount] using h
    · exact h
  | stopWait =>
    simp only [step]
    split
    · split <;> simpa [acceptDoneCount] using h
    · exact h

/-- Over any schedule, the number of terminated serve tasks plus the
terminated accept loop never exceeds `__stopped`. -/
theorem stopped_dominates_run (s : Sys) (steps : List Step)
    (h : countDone s.conns + acceptDoneCount s ≤ s.stopped) :
    countDone (run s steps).conns + acceptDoneCount (run s steps) ≤ (run s steps).stopped := by
  induction steps generalizing s with
  | nil => exact h
  | cons a rest ih => exact ih (step s a) (stopped_dominates_step s a h)

/-- Lifecycle invariant: once `stop()` has been called the `keep_going`
flag is and stays `False`, and `stop()` has returned only if the
`__stopped` counter has reached 2. -/
def lifeInv (s : Sys) : Prop :=
  ((s.stopPhase = StopPhase.waiting ∨ s.stopPhase = StopPhase.returned) →
    s.keepGoing = false) ∧
  (s.stopPhase = StopPhase.returned → 2 ≤ s.stopped)

/-- The invariant `lifeInv` is preserved by every step: no transition ever sets
`keep_going` back to `True`, `__stopped` never decreases, and the only
transition into `returned` is guarded by `2 ≤ __stopped`. -/
theorem lifeInv_step (s : Sys) (a : Step) (h : lifeInv s) : lifeInv (step s a) := by
  obtain ⟨hflag, hret⟩ := h
  cases a with
  | tailerCheck =>
    simp only [step]
    split
    · split <;> exact ⟨hflag, hret⟩
    · exact ⟨hflag, hret⟩
  | tailerRead vals =>
    simp only [step]
    split
    · split <;> exact ⟨hflag, hret⟩
    · exact ⟨hflag, hret⟩
  | acceptCheck =>
    simp only [step]
    split
    · split
      · exact ⟨hflag, hret⟩
      · exact ⟨hflag, fun hp => Nat.le_succ_of_le (hret hp)⟩
    · exact ⟨hflag, hret⟩
  | acceptConn =>
    simp only [step]
    split
    · split <;> exact ⟨hflag, hret⟩
    · exact ⟨hflag, hret⟩
  | clientConnect =>
    exact ⟨hflag, hret⟩
  | serveCheck i =>
    simp only [step]
    split
    · split
      · exact ⟨hflag, hret⟩
      · exact ⟨hflag, fun hp => Nat.le_succ_of_le (hret hp)⟩
    · exact ⟨hflag, hret⟩
  | serveRecv i ev =>
    simp only [step]
    split
    · cases ev with
      | closed => exact ⟨hflag, fun hp => Nat.le_succ_of_le (hret hp)⟩
      | brokenPipe => exact ⟨hflag, fun hp => Nat.le_succ_of_le (hret hp)⟩
      | badUtf8 => exact ⟨hflag, hret⟩
      | msg m =>
        dsimp only
        split
        · exact ⟨fun _ => rfl, hret⟩
        · exact ⟨hflag, hret⟩
    · exact ⟨hflag, hret⟩
  | stopCall =>
    simp only [step]
    split
    · rename_i hph
      refine ⟨fun _ => rfl, fun hp => ?_⟩
      simp only at hp
      cases hp
    · exact ⟨hflag, hret⟩
  | stopWait =>
    simp only [step]
    split
    · rename_i hph
      split
      · rename_i hcnt
        exact ⟨fun _ => hflag (Or.inl hph), fun _ => hcnt⟩
      · exact ⟨hflag, hret⟩
    · exact ⟨hflag, hret⟩

/-- The invariant `lifeInv` holds along every schedule from `initState`. -/
theorem lifeInv_run (steps : List Step) : lifeInv (run initState steps) := by
  have hstart : lifeInv initState := by
    constructor
    · intro hp
      rcases hp with hp | hp <;> cases hp
    · intro hp
      cases hp
  have hstep : ∀ (s : Sys) (l : List Step), lifeInv s → lifeInv (run s l) := by
    intro s l
    induction l generalizing s with
    | nil => exact fun h => h
    | cons a rest ih => exact fun h => ih (step s a) (lifeInv_step s a h)
  exact hstep initState steps hstart

/-- A schedule in which `stop()` returns while the tailer sits in
`file.read`: the accept loop and the tailer pass their `while` tests,
`stop()` connects its loopback socket and clears the flag, the accept
loop wakes, accepts the loopback connection and exits (first increment),
the spawned serve task fails its first `while` test and exits (second
increment), and the `stop()` wait sees `__stopped = 2`. -/
def cexSteps : List Step :=
  [Step.acceptCheck, Step.tailerCheck, Step.stopCall, Step.acceptConn,
   Step.acceptCheck, Step.serveCheck 0, Step.stopWait]

/-- Claim C2, counterexample. After the schedule `cexSteps`, `stop()` has
returned (`__stopped` reached 2 from the accept loop and one serve task)
while the tailer is still suspended in `file.read` — it has signaled
nothing (`unpack` never touches `__stopped`) — and the tailer then
processes one more poll, publishing a new record to `last_log` after
`stop()` has already returned. -/
theorem stop_returns_while_tailer_active_cex :
    (run initState cexSteps).stopPhase = StopPhase.returned ∧
    (run initState cexSteps).stopped = 2 ∧
    (run initState cexSteps).tailerPc = TailerPc.read ∧
    (run initState cexSteps).lastLog = Value.dict [] ∧
    (step (run initState cexSteps)
        (Step.tailerRead [Value.dict [("foo", Value.int 1)]])).lastLog =
      Value.dict [("foo", Value.int 1)] ∧
    Value.dict [("foo", Value.int 1)] ≠ Value.dict [] := by
  refine ⟨rfl, rfl, rfl, rfl, rfl, ?_⟩
  intro hcontra
  have : ("foo", Value.int 1) :: ([] : List (String × Value)) = [] :=
    Value.dict.inj hcontra
  exact List.noConfusion this

/-- Claim C2, amended. Here `stop()` returns only once the completion counter
`__stopped` has reached 2; the counter is incremented by serve-task and
accept-loop terminations — never by the tailer.  When `stop()` has
returned, `keep_going` is `False`, so the tailer loop and the accept
loop each terminate at their next `while` test (though, as the
counterexample shows, the tailer may still process events until that
test). -/
theorem stop_returns_only_after_counter_two (steps : List Step)
    (h : (run initState steps).stopPhase = StopPhase.returned) :
    2 ≤ (run initState steps).stopped ∧
    (run initState steps).keepGoing = false ∧
    ((run initState steps).tailerPc = TailerPc.check →
      (step (run initState steps) Step.tailerCheck).tailerPc = TailerPc.done) ∧
    ((run initState steps).acceptPc = AcceptPc.check →
      (step (run initState steps) Step.acceptCheck).acceptPc = AcceptPc.done) := by
  obtain ⟨hflag, hret⟩ := lifeInv_run steps
  have hkg : (run initState steps).keepGoing = false := hflag (Or.inr h)
  refine ⟨hret h, hkg, ?_, ?_⟩
  · intro hpc
    simp only [step, hpc, if_pos, hkg]
    rfl
  · intro hpc
    simp only [step, hpc, if_pos, hkg]
    rfl

/-- Witness for `stop_returns_only_after_counter_two` on the concrete
schedule `cexSteps`. -/
theorem stop_returns_only_after_counter_two_witness :
    2 ≤ (run initState cexSteps).stopped ∧
    (run initState cexSteps).keepGoing = false :=
  ⟨(stop_returns_only_after_counter_two cexSteps rfl).1,
   (stop_returns_only_after_counter_two cexSteps rfl).2.1⟩

/-- Claim C9. For any reachable state of the service: a serve task at its
`while` test with the flag cleared, or one whose recv reports a closed
connection or a broken pipe, terminates and increments `__stopped` by
exactly one; once two serve tasks have terminated, `__stopped ≥ 2`, so a
pending `stop()` call's wait (`while self.__stopped < 2`) completes on
its next test, regardless of the tailer's and the accept loop's state. -/
theorem serve_terminations_unblock_stop (steps : List Step) (i : Nat) :
    ((run initState steps).conns.get? i = some ConnPc.check →
      (run initState steps).keepGoing = false →
      (step (run initState steps) (Step.serveCheck i)).stopped =
        (run initState steps).stopped + 1) ∧
    ((run initState steps).conns.get? i = some ConnPc.recv →
      (step (run initState steps) (Step.serveRecv i RecvEvent.closed)).stopped =
          (run initState steps).stopped + 1 ∧
      (step (run initState steps) (Step.serveRecv i RecvEvent.brokenPipe)).stopped =
          (run initState steps).stopped + 1) ∧
    (2 ≤ countDone (run initState steps).conns → 2 ≤ (run initState steps).stopped) ∧
    (2 ≤ countDone (run initState steps).conns →
      (run initState steps).stopPhase = StopPhase.waiting →
      (step (run initState steps) Step.stopWait).stopPhase = StopPhase.returned) := by
  have hdom := stopped_dominates_run initState steps (by simp [initState, countDone, acceptDoneCount])
  have hcnt : 2 ≤ countDone (run initState steps).conns → 2 ≤ (run initState steps).stopped := by
    intro h2
    exact Nat.le_trans h2 (Nat.le_trans (Nat.le_add_right _ _) hdom)
  refine ⟨?_, ?_, hcnt, ?_⟩
  · intro hget hkg
    simp only [step, hget, hkg]
    rfl
  · intro hget
    constructor <;> simp only [step, hget]
  · intro h2 hph
    simp only [step, hph, if_pos]
    rw [if_pos (hcnt h2)]

/-- Schedule for the `serve_terminations_unblock_stop` witness: two
clients connect and are accepted, both serve loops run and both clients
disconnect (two increments), then `stop()` is called. -/
def connSteps : List Step :=
  [Step.clientConnect, Step.clientConnect, Step.acceptCheck, Step.acceptConn,
   Step.acceptCheck, Step.acceptConn, Step.serveCheck 0, Step.serveCheck 1,
   Step.serveRecv 0 RecvEvent.closed, Step.serveRecv 1 RecvEvent.closed,
   Step.stopCall]

/-- Prefix of `connSteps` leaving one serve task at its `while` test
with the flag already cleared. -/
def connStepsB : List Step :=
  [Step.clientConnect, Step.acceptCheck, Step.acceptConn, Step.stopCall]

/-- Witness for `serve_terminations_unblock_stop`: after `connSteps`,
two closed connections have pushed `__stopped` to 2 and the `stop()`
wait completes; after `connStepsB`, a serve task exiting at its `while`
test increments `__stopped` by one. -/
theorem serve_terminations_unblock_stop_witness :
    2 ≤ (run initState connSteps).stopped ∧
    (step (run initState connSteps) Step.stopWait).stopPhase = StopPhase.returned ∧
    (step (run initState connStepsB) (Step.serveCheck 0)).stopped =
      (run initState connStepsB).stopped + 1 :=
  ⟨(serve_terminations_unblock_stop connSteps 0).2.2.1 (by decide),
   (serve_terminations_unblock_stop connSteps 0).2.2.2 (by decide) rfl,
   (serve_terminations_unblock_stop connStepsB 0).1 rfl rfl⟩
